import Mathlib

/-!
Verification of `scripts/changelog_head.py`: a line scanner that prints the
body of the first changelog entry.  Input is modelled as the list of lines
the `for line in open(...)` loop iterates over; output is the list of lines
printed, in order.  Lines are `List Char`.
-/

set_option autoImplicit false

namespace ChangelogHead

/-- Python 2 `str.strip` whitespace set: space, tab, newline, carriage
return, vertical tab (0x0b), form feed (0x0c). -/
def pyWhitespace (c : Char) : Bool :=
  c = ' ' || c = '\t' || c = '\n' || c = '\r' || c = Char.ofNat 11 || c = Char.ofNat 12

/-- `line.strip()`: remove leading and trailing whitespace. -/
def strip (l : List Char) : List Char :=
  ((l.dropWhile pyWhitespace).reverse.dropWhile pyWhitespace).reverse

/-- The literal text `Changes in [` opening the header pattern
`^Changes in \[.*\]`. -/
def headerPat : List Char := "Changes in [".data

/-- Whether `.*\]` matches a prefix of `xs`: some `]` occurs with no
newline before it (`.` does not match a newline; `re.match` does not
anchor the end, so characters after that `]` are unconstrained). -/
def hasCloseBracket : List Char → Bool
  | [] => false
  | c :: rest => if c = ']' then true else if c = '\n' then false else hasCloseBracket rest

/-- Truthiness of `re.match(r"^Changes in \[.*\]", line)`: the line starts
with the literal `Changes in [` and a `]` follows (no newline before it). -/
def isHeader (l : List Char) : Bool :=
  headerPat.isPrefixOf l && hasCloseBracket (l.drop headerPat.length)

/-- Truthiness of `re.match(r"^=+$", line)` on an already-stripped line
(which contains no trailing newline): one or more `=` and nothing else. -/
def isSeparator (l : List Char) : Bool :=
  !l.isEmpty && l.all (fun c => c = '=')

/-- The scan loop of `changelog_head.py`, with `found_first_header` as the
second argument; returns the printed (stripped) lines in order.  Note the
`print` branch does not consult `found_first_header`. -/
def scanFrom : List (List Char) → Bool → List (List Char)
  | [], _ => []
  | line :: rest, found =>
    if isHeader (strip line) then
      if found then [] else scanFrom rest true
    else if !isSeparator (strip line) && decide (0 < (strip line).length) then
      strip line :: scanFrom rest found
    else
      scanFrom rest found

/-- The whole program: run the scan with `found_first_header = False`. -/
def extract (lines : List (List Char)) : List (List Char) :=
  scanFrom lines false

/-- The scan loop instrumented with the number of input lines consumed
(the line on which the loop breaks counts as consumed). -/
def scanFromCount : List (List Char) → Bool → List (List Char) × Nat
  | [], _ => ([], 0)
  | line :: rest, found =>
    if isHeader (strip line) then
      if found then ([], 1)
      else ((scanFromCount rest true).1, (scanFromCount rest true).2 + 1)
    else if !isSeparator (strip line) && decide (0 < (strip line).length) then
      (strip line :: (scanFromCount rest found).1, (scanFromCount rest found).2 + 1)
    else ((scanFromCount rest found).1, (scanFromCount rest found).2 + 1)

/-! ### Helper lemmas -/

lemma isPrefixOf_self_append : ∀ (p r : List Char), p.isPrefixOf (p ++ r) = true
  | [], _ => by simp [List.isPrefixOf]
  | a :: p, r => by
    simp only [List.cons_append, List.isPrefixOf, beq_self_eq_true, Bool.true_and]
    exact isPrefixOf_self_append p r

lemma eq_append_drop_of_isPrefixOf :
    ∀ (p l : List Char), p.isPrefixOf l = true → l = p ++ l.drop p.length
  | [], l, _ => by simp
  | a :: p, [], h => by simp [List.isPrefixOf] at h
  | a :: p, b :: l, h => by
    simp only [List.isPrefixOf, Bool.and_eq_true, beq_iff_eq] at h
    obtain ⟨rfl, h2⟩ := h
    simpa using eq_append_drop_of_isPrefixOf p l h2

lemma hasCloseBracket_iff (xs : List Char) :
    hasCloseBracket xs = true ↔ ∃ s t, xs = s ++ ']' :: t ∧ '\n' ∉ s := by
  induction xs with
  | nil =>
    constructor
    · intro h
      simp [hasCloseBracket] at h
    · rintro ⟨s, t, hst, -⟩
      cases s <;> simp at hst
  | cons c rest ih =>
    by_cases hc : c = ']'
    · subst hc
      constructor
      · intro _
        exact ⟨[], rest, rfl, by simp⟩
      · intro _
        simp [hasCloseBracket]
    · by_cases hn : c = '\n'
      · subst hn
        constructor
        · intro h
          simp [hasCloseBracket, hc] at h
        · rintro ⟨s, t, hst, hns⟩
          cases s with
          | nil =>
            simp only [List.nil_append, List.cons.injEq] at hst
            exact absurd hst.1 hc
          | cons d s =>
            simp only [List.cons_append, List.cons.injEq] at hst
            exact absurd (List.mem_cons_self d s) (hst.1 ▸ hns)
      · have hrec : hasCloseBracket (c :: rest) = hasCloseBracket rest := by
          simp [hasCloseBracket, hc, hn]
        rw [hrec, ih]
        constructor
        · rintro ⟨s, t, hst, hns⟩
          refine ⟨c :: s, t, by simp [hst], ?_⟩
          intro hmem
          rcases List.mem_cons.mp hmem with h | h
          · exact hn h.symm
          · exact hns h
        · rintro ⟨s, t, hst, hns⟩
          cases s with
          | nil =>
            simp only [List.nil_append, List.cons.injEq] at hst
            exact absurd hst.1 hc
          | cons d s =>
            simp only [List.cons_append, List.cons.injEq] at hst
            exact ⟨s, t, hst.2, fun hm => hns (List.mem_cons_of_mem d hm)⟩

lemma mem_scanFrom_not_sep (o : List Char) :
    ∀ (lines : List (List Char)) (found : Bool),
      o ∈ scanFrom lines found → isSeparator o = false ∧ o ≠ []
  | [], _ => by
    intro ho
    simp [scanFrom] at ho
  | line :: rest, found => by
    intro ho
    rw [scanFrom] at ho
    by_cases h1 : isHeader (strip line) = true
    · rw [if_pos h1] at ho
      cases found with
      | true => simp at ho
      | false => exact mem_scanFrom_not_sep o rest true ho
    · rw [if_neg h1] at ho
      by_cases h2 : (!isSeparator (strip line) && decide (0 < (strip line).length)) = true
      · rw [if_pos h2] at ho
        rcases List.mem_cons.mp ho with rfl | hmem
        · rw [Bool.and_eq_true] at h2
          refine ⟨by simpa using h2.1, ?_⟩
          have hlen := of_decide_eq_true h2.2
          intro hnil
          rw [hnil] at hlen
          simp at hlen
        · exact mem_scanFrom_not_sep o rest found hmem
      · rw [if_neg h2] at ho
        exact mem_scanFrom_not_sep o rest found ho

lemma scanFrom_sublist : ∀ (lines : List (List Char)) (found : Bool),
    List.Sublist (scanFrom lines found) (lines.map strip)
  | [], _ => by simp [scanFrom]
  | line :: rest, found => by
    rw [scanFrom]
    simp only [List.map_cons]
    by_cases h1 : isHeader (strip line) = true
    · rw [if_pos h1]
      cases found with
      | true => exact List.nil_sublist _
      | false => exact (scanFrom_sublist rest true).cons _
    · rw [if_neg h1]
      by_cases h2 : (!isSeparator (strip line) && decide (0 < (strip line).length)) = true
      · rw [if_pos h2]
        exact (scanFrom_sublist rest found).cons₂ _
      · rw [if_neg h2]
        exact (scanFrom_sublist rest found).cons _

lemma scanFromCount_fst : ∀ (lines : List (List Char)) (found : Bool),
    (scanFromCount lines found).1 = scanFrom lines found
  | [], _ => rfl
  | line :: rest, found => by
    rw [scanFromCount, scanFrom]
    by_cases h1 : isHeader (strip line) = true
    · rw [if_pos h1, if_pos h1]
      cases found with
      | true => rfl
      | false => exact scanFromCount_fst rest true
    · rw [if_neg h1, if_neg h1]
      by_cases h2 : (!isSeparator (strip line) && decide (0 < (strip line).length)) = true
      · rw [if_pos h2, if_pos h2]
        exact congrArg _ (scanFromCount_fst rest found)
      · rw [if_neg h2, if_neg h2]
        exact scanFromCount_fst rest found

lemma scanFromCount_pos (line : List Char) (rest : List (List Char)) (found : Bool) :
    1 ≤ (scanFromCount (line :: rest) found).2 := by
  rw [scanFromCount]
  by_cases h1 : isHeader (strip line) = true
  · rw [if_pos h1]
    cases found <;> simp
  · rw [if_neg h1]
    by_cases h2 : (!isSeparator (strip line) && decide (0 < (strip line).length)) = true
    · rw [if_pos h2]
      exact Nat.succ_le_succ (Nat.zero_le _)
    · rw [if_neg h2]
      exact Nat.succ_le_succ (Nat.zero_le _)

lemma scanFromCount_le : ∀ (lines : List (List Char)) (found : Bool),
    (scanFromCount lines found).2 ≤ lines.length
  | [], _ => Nat.le_refl 0
  | line :: rest, found => by
    rw [scanFromCount]
    simp only [List.length_cons]
    by_cases h1 : isHeader (strip line) = true
    · rw [if_pos h1]
      cases found with
      | true => simp
      | false => exact Nat.succ_le_succ (scanFromCount_le rest true)
    · rw [if_neg h1]
      by_cases h2 : (!isSeparator (strip line) && decide (0 < (strip line).length)) = true
      · rw [if_pos h2]
        exact Nat.succ_le_succ (scanFromCount_le rest found)
      · rw [if_neg h2]
        exact Nat.succ_le_succ (scanFromCount_le rest found)

lemma scanFromCount_break_aux (rest : List (List Char)) (line : List Char)
    (newfound found : Bool)
    (heq : (scanFromCount (line :: rest) found).2 = (scanFromCount rest newfound).2 + 1)
    (ih : (scanFromCount rest newfound).2 < rest.length →
      isHeader (strip (rest.getD ((scanFromCount rest newfound).2 - 1) [])) = true ∧
      (newfound = true ∨ ∃ i, i + 1 < (scanFromCount rest newfound).2 ∧
        isHeader (strip (rest.getD i [])) = true))
    (hlt : (scanFromCount (line :: rest) found).2 < (line :: rest).length) :
    isHeader (strip ((line :: rest).getD
      ((scanFromCount (line :: rest) found).2 - 1) [])) = true ∧
    (newfound = true ∨ ∃ i, 0 < i ∧ i + 1 < (scanFromCount (line :: rest) found).2 ∧
      isHeader (strip ((line :: rest).getD i [])) = true) := by
  rw [heq] at hlt ⊢
  simp only [List.length_cons] at hlt
  have hlt2 : (scanFromCount rest newfound).2 < rest.length := Nat.lt_of_succ_lt_succ hlt
  obtain ⟨hhd, hflag⟩ := ih hlt2
  have hrne : rest ≠ [] := by
    intro h
    rw [h] at hlt2
    simp at hlt2
  obtain ⟨l0, r0, rfl⟩ : ∃ l0 r0, rest = l0 :: r0 := by
    cases rest with
    | nil => exact absurd rfl hrne
    | cons l0 r0 => exact ⟨l0, r0, rfl⟩
  have hpos : 1 ≤ (scanFromCount (l0 :: r0) newfound).2 := scanFromCount_pos l0 r0 newfound
  obtain ⟨m, hm⟩ : ∃ m, (scanFromCount (l0 :: r0) newfound).2 = m + 1 :=
    ⟨(scanFromCount (l0 :: r0) newfound).2 - 1, (Nat.succ_pred_eq_of_pos hpos).symm⟩
  rw [hm] at hhd hflag ⊢
  refine ⟨?_, ?_⟩
  · simpa using hhd
  · rcases hflag with h | ⟨i, hi, hih⟩
    · exact Or.inl h
    · exact Or.inr ⟨i + 1, Nat.succ_pos i, Nat.succ_lt_succ hi, by simpa using hih⟩

lemma scanFromCount_break : ∀ (lines : List (List Char)) (found : Bool),
    (scanFromCount lines found).2 < lines.length →
      isHeader (strip (lines.getD ((scanFromCount lines found).2 - 1) [])) = true ∧
      (found = true ∨ ∃ i, i + 1 < (scanFromCount lines found).2 ∧
        isHeader (strip (lines.getD i [])) = true)
  | [], _ => by
    intro h
    simp [scanFromCount] at h
  | line :: rest, found => by
    intro hlt
    by_cases h1 : isHeader (strip line) = true
    · cases found with
      | true =>
        have he : scanFromCount (line :: rest) true = ([], 1) := by
          rw [scanFromCount, if_pos h1]
          simp
        rw [he]
        exact ⟨by simpa using h1, Or.inl rfl⟩
      | false =>
        have heq : (scanFromCount (line :: rest) false).2 =
            (scanFromCount rest true).2 + 1 := by
          rw [scanFromCount, if_pos h1]
          simp
        obtain ⟨hhd, hflag⟩ :=
          scanFromCount_break_aux rest line true false heq
            (scanFromCount_break rest true) hlt
        refine ⟨hhd, Or.inr ?_⟩
        rcases hflag with - | ⟨i, -, hilt, hih⟩
        · -- the first header of the input, `line`, was seen before the break
          refine ⟨0, ?_, by simpa using h1⟩
          rw [heq] at hlt ⊢
          simp only [List.length_cons] at hlt
          have hone : 1 ≤ (scanFromCount rest true).2 := by
            cases rest with
            | nil => simp [scanFromCount] at hlt
            | cons a b => exact scanFromCount_pos a b true
          omega
        · exact ⟨i, hilt, hih⟩
    · have hbranch : ∀ found2 : Bool,
          (scanFromCount (line :: rest) found2).2 = (scanFromCount rest found2).2 + 1 := by
        intro found2
        rw [scanFromCount, if_neg h1]
        by_cases h2 : (!isSeparator (strip line) && decide (0 < (strip line).length)) = true
        · rw [if_pos h2]
        · rw [if_neg h2]
      obtain ⟨hhd, hflag⟩ :=
        scanFromCount_break_aux rest line found found (hbranch found)
          (scanFromCount_break rest found) hlt
      refine ⟨hhd, ?_⟩
      rcases hflag with h | ⟨i, -, hilt, hih⟩
      · exact Or.inl h
      · exact Or.inr ⟨i, hilt, hih⟩

/-! ### Claims -/

/-- Claim C1: the spec says a stripped body line is emitted only when
`found_first_header` is true, so a preamble is discarded.  The code's
`print` branch never tests the flag: on this input the preamble line
before the first header is printed. -/
theorem C1_preamble_line_is_printed :
    extract ["A preamble line.".data, "Changes in [1.0.0]".data, "Body line.".data] =
      ["A preamble line.".data, "Body line.".data] := by decide

/-- Claim C2, counterexample: the claim says a line is a header exactly when
it begins with `Changes in [`, with no suffix validation.  The regex
`^Changes in \[.*\]` also demands a closing `]`: the line
`Changes in [1.2.0` begins with the prefix yet is not recognized — it is
printed as an ordinary body line and does not set the flag. -/
theorem C2_prefix_alone_not_recognized :
    headerPat.isPrefixOf (strip "Changes in [1.2.0".data) = true ∧
    isHeader (strip "Changes in [1.2.0".data) = false ∧
    extract ["Changes in [1.2.0".data, "Changes in [9.9.9]".data, "body".data] =
      ["Changes in [1.2.0".data, "body".data] := by decide

/-- Claim C2, amended: a stripped line is recognized as an entry header
exactly when it is the literal `Changes in [`, then arbitrary characters
none of which is a newline, then `]`, then arbitrary trailing characters. -/
theorem C2_header_characterization (l : List Char) :
    isHeader l = true ↔ ∃ s t, l = headerPat ++ s ++ ']' :: t ∧ '\n' ∉ s := by
  unfold isHeader
  rw [Bool.and_eq_true]
  constructor
  · rintro ⟨h1, h2⟩
    obtain ⟨s, t, hst, hns⟩ := (hasCloseBracket_iff _).mp h2
    refine ⟨s, t, ?_, hns⟩
    rw [eq_append_drop_of_isPrefixOf headerPat l h1, hst, List.append_assoc]
  · rintro ⟨s, t, rfl, hns⟩
    constructor
    · rw [List.append_assoc]
      exact isPrefixOf_self_append _ _
    · have hdrop : (headerPat ++ s ++ ']' :: t).drop headerPat.length = s ++ ']' :: t := by
        rw [List.append_assoc]
        exact List.drop_left _ _
      rw [hdrop]
      exact (hasCloseBracket_iff _).mpr ⟨s, t, rfl, hns⟩

theorem C2_header_characterization_witness :
    isHeader "Changes in [3.0.0] beta".data = true :=
  (C2_header_characterization ("Changes in [3.0.0] beta".data)).mpr
    ⟨"3.0.0".data, " beta".data, by decide, by decide⟩

/-- Claim C3: the spec says that with two headers the output is exactly the
body between them.  The code also prints the preamble: on this input the
line before the first header appears in the output. -/
theorem C3_two_headers_preamble_printed :
    extract ["Intro prose.".data, "Changes in [2.0.0]".data, "New stuff.".data,
      "Changes in [1.0.0]".data, "Old stuff.".data] =
      ["Intro prose.".data, "New stuff.".data] := by decide

/-- Claim C4: the spec says that with one header the output is exactly the
body after it.  The code also prints the preamble line before the header. -/
theorem C4_one_header_preamble_printed :
    extract ["Welcome note.".data, "Changes in [0.5.0]".data, "Only body.".data] =
      ["Welcome note.".data, "Only body.".data] := by decide

/-- Claim C5: the spec says that with zero headers the output is empty.
On the spec's own scenario B the code prints every non-blank,
non-separator line. -/
theorem C5_no_header_still_prints :
    extract ["Random text".data, "More text".data] =
      ["Random text".data, "More text".data] := by decide

/-- Claim C6: a line that is all `=` after stripping, or empty after
stripping, never appears in the output, whatever the scan flag is. -/
theorem C6_separator_blank_never_output (lines : List (List Char)) (found : Bool)
    (s : List Char) (h : isSeparator s = true ∨ s = []) :
    s ∉ scanFrom lines found := by
  intro hmem
  rcases mem_scanFrom_not_sep s lines found hmem with ⟨hsep, hne⟩
  rcases h with h | h
  · rw [h] at hsep
    simp at hsep
  · exact hne h

theorem C6_separator_blank_never_output_witness :
    "===".data ∉ scanFrom ["Changes in [1.0.0]".data, "===".data, "x".data] true :=
  C6_separator_blank_never_output _ true _ (Or.inl (by decide))

/-- Claim C7: the scan is a total function of the finite input (it consumes
at most all lines); a header met while the flag is already true ends it at
once, with no output and exactly one line consumed, whatever follows; and
the only way it stops before exhausting the input is such a break: if
fewer lines were consumed than exist, the last line consumed is a header
and a header had already been seen (or the flag started true). -/
theorem C7_termination_and_early_exit
    (line : List Char) (rest lines : List (List Char)) (found : Bool) :
    (isHeader (strip line) = true → scanFromCount (line :: rest) true = ([], 1)) ∧
    (scanFromCount lines found).2 ≤ lines.length ∧
    (scanFromCount lines found).1 = scanFrom lines found ∧
    ((scanFromCount lines found).2 < lines.length →
      isHeader (strip (lines.getD ((scanFromCount lines found).2 - 1) [])) = true ∧
      (found = true ∨ ∃ i, i + 1 < (scanFromCount lines found).2 ∧
        isHeader (strip (lines.getD i [])) = true)) := by
  refine ⟨?_, scanFromCount_le lines found, scanFromCount_fst lines found,
    scanFromCount_break lines found⟩
  intro h
  rw [scanFromCount, if_pos h]
  simp

theorem C7_termination_and_early_exit_witness :
    scanFromCount ("Changes in [0.2.0]".data :: ["unread tail".data]) true = ([], 1) ∧
    (scanFromCount ["lonely".data] false).2 ≤ (["lonely".data] : List (List Char)).length ∧
    isHeader (strip ((["x".data, "Changes in [0.2.0]".data, "Changes in [0.1.0]".data,
        "tail".data].getD
      ((scanFromCount ["x".data, "Changes in [0.2.0]".data, "Changes in [0.1.0]".data,
        "tail".data] false).2 - 1) []))) = true :=
  ⟨(C7_termination_and_early_exit ("Changes in [0.2.0]".data) ["unread tail".data]
      ["lonely".data] false).1 (by decide),
   (C7_termination_and_early_exit ("Changes in [0.2.0]".data) ["unread tail".data]
      ["lonely".data] false).2.1,
   ((C7_termination_and_early_exit ("Changes in [0.2.0]".data) ["unread tail".data]
      ["x".data, "Changes in [0.2.0]".data, "Changes in [0.1.0]".data, "tail".data]
      false).2.2.2 (by decide)).1⟩

/-- Claim C8: the extractor is deterministic — the output is a function of
the input line sequence alone, so two runs on the same input agree. -/
theorem C8_deterministic (lines1 lines2 : List (List Char)) (h : lines1 = lines2) :
    extract lines1 = extract lines2 := by
  rw [h]

theorem C8_deterministic_witness :
    extract ["Changes in [1.0.0]".data, "x".data] =
      extract ["Changes in [1.0.0]".data, "x".data] :=
  C8_deterministic (["Changes in [1.0.0]".data, "x".data])
    (["Changes in [1.0.0]".data, "x".data]) rfl

/-- Claim C9: the output is a sublist (order-preserving, no duplication, no
invention) of the per-line stripped input. -/
theorem C9_output_sublist_of_stripped_input (lines : List (List Char)) :
    List.Sublist (extract lines) (lines.map strip) :=
  scanFrom_sublist lines false

/-- Claim C10: trailing content after the closing `]` does not prevent
header recognition (the regex is not end-anchored). -/
theorem C10_trailing_after_bracket (s t : List Char) (h : '\n' ∉ s) :
    isHeader (headerPat ++ s ++ ']' :: t) = true := by
  unfold isHeader
  rw [Bool.and_eq_true]
  constructor
  · rw [List.append_assoc]
    exact isPrefixOf_self_append _ _
  · have hdrop : (headerPat ++ s ++ ']' :: t).drop headerPat.length = s ++ ']' :: t := by
      rw [List.append_assoc]
      exact List.drop_left _ _
    rw [hdrop]
    exact (hasCloseBracket_iff _).mpr ⟨s, t, rfl, h⟩

theorem C10_trailing_after_bracket_witness :
    isHeader (headerPat ++ "1.2.0".data ++ ']' :: " (2024-01-01)".data) = true :=
  C10_trailing_after_bracket ("1.2.0".data) (" (2024-01-01)".data) (by decide)

end ChangelogHead
